import Mathlib

/-!
# Verification of the sysfs-class block-device module

Shallow embedding of `src/block.rs` (crate `sysfs-class`): the `Block`
entity bound to a sysfs directory path, the SCSI peripheral-device-type
codec, device-type classification, partition parent/child derivation,
slave enumeration and the `queue/scheduler` attribute parser.

The pseudo-filesystem is the external collaborator of the crate; it is
modelled as a record of capabilities (`Fs`).  Rust `usize` subtraction
and string slicing can panic; the embedding makes those panics explicit
(`RunError.crash`, or `none` for the scheduler-name accessor and the
byte-slicing primitives).  Rust byte indices over UTF-8 strings are
modelled by `utf8Len`/`takeBytes`/`dropBytes` over `List Char`.
-/

namespace SysfsBlock

/-- Total UTF-8 byte length of a character list (Rust `str::len`). -/
def utf8Len (s : List Char) : Nat := (s.map (fun c => c.utf8Size)).sum

/-- The prefix of `s` occupying exactly `n` UTF-8 bytes, or `none` when `n`
overruns the string or falls inside a multi-byte character (a Rust slice
at such an index panics). -/
def takeBytes : List Char → Nat → Option (List Char)
  | _, 0 => some []
  | [], _ + 1 => none
  | c :: cs, n + 1 =>
    if c.utf8Size ≤ n + 1 then (takeBytes cs (n + 1 - c.utf8Size)).map (c :: ·) else none

/-- Drop exactly `n` UTF-8 bytes from the front of `s`; `none` when `n`
overruns the string or is not a character boundary. -/
def dropBytes : List Char → Nat → Option (List Char)
  | s, 0 => some s
  | [], _ + 1 => none
  | c :: cs, n + 1 =>
    if c.utf8Size ≤ n + 1 then dropBytes cs (n + 1 - c.utf8Size) else none

/-- Rust byte-range slicing `&s[a..b]`; `none` models the panic on a
reversed range, an out-of-bounds index or a non-boundary index. -/
def sliceBytes (s : List Char) (a b : Nat) : Option (List Char) :=
  if a ≤ b then (dropBytes s a).bind (fun t => takeBytes t (b - a)) else none

/-- Rust `Option::is_some_and`. -/
def isSomeAnd : Option α → (α → Bool) → Bool
  | none, _ => false
  | some a, f => f a

/-- Rust `str::starts_with` on the character level (a valid UTF-8 byte
prefix is exactly a character-list prefix). -/
def listStartsWith : List Char → List Char → Bool
  | _, [] => true
  | [], _ :: _ => false
  | a :: as, b :: bs => a == b && listStartsWith as bs

def strStartsWith (s pre : String) : Bool := listStartsWith s.data pre.data

instance [DecidableEq ε] [DecidableEq α] : DecidableEq (Except ε α) := fun a b =>
  match a, b with
  | .error e, .error f =>
    if h : e = f then .isTrue (h ▸ rfl) else .isFalse (fun c => h (Except.error.injEq .. ▸ c))
  | .error _, .ok _ => .isFalse (fun c => Except.noConfusion c)
  | .ok _, .error _ => .isFalse (fun c => Except.noConfusion c)
  | .ok u, .ok v =>
    if h : u = v then .isTrue (h ▸ rfl) else .isFalse (fun c => h (Except.ok.injEq .. ▸ c))

/-- I/O error kinds surfaced by the filesystem capability (§7 of the spec). -/
inductive IoError
  | notFound
  | permissionDenied
  | other (code : Nat)
deriving DecidableEq

/-- Failure of a typed attribute read: an I/O error or a parse failure. -/
inductive FileError
  | io (e : IoError)
  | parse
deriving DecidableEq

/-- A run-time failure of a hierarchy operation: a Rust panic made
explicit, or a propagated I/O error. -/
inductive RunError
  | crash
  | io (e : IoError)
deriving DecidableEq

/-- Modelled from the spec: the filesystem accessor capability (§2 item 1,
out-of-scope collaborator of the crate, and the `SysClass` trait helpers
whose implementation lives outside `src/block.rs`): read a file's full
contents, check path existence, list a directory (each entry may itself
fail), and list the names under the block class root for `SysClass::all`. -/
structure Fs where
  readFile : String → Except IoError String
  pathExists : String → Bool
  readDir : String → Except IoError (List (Except IoError String))
  classDirNames : Except IoError (List String)

/-- A block device in /sys/class/block (`struct Block { path: PathBuf }`). -/
structure Block where
  path : String
deriving DecidableEq

/-- The sysfs class root for `Block` (`SysClass::class() = "block"`). -/
def blockClassRoot : String := "/sys/class/block"

/-- Modelled from the spec: `SysClass` derived helper `read_file` (§4.1) —
read the raw text of an attribute file relative to the instance path. -/
def Block.read_file (b : Block) (fs : Fs) (rel : String) : Except IoError String :=
  fs.readFile (b.path ++ "/" ++ rel)

/-- Trailing-whitespace trim applied by `parse_file` before parsing (§4.1:
"text is trimmed of trailing whitespace/newline before parsing"). -/
def trimTrailing (s : String) : String :=
  ⟨(s.data.reverse.dropWhile Char.isWhitespace).reverse⟩

/-- Modelled from the spec: `SysClass` derived helper `parse_file` (§4.1) —
read, trim, then parse with the target type's parser. -/
def Block.parse_file (b : Block) (fs : Fs) (rel : String)
    (p : String → Option α) : Except FileError α :=
  match b.read_file fs rel with
  | .error e => .error (.io e)
  | .ok txt =>
    match p (trimTrailing txt) with
    | none => .error .parse
    | some v => .ok v

/-- Modelled from the spec: `SysClass::all` (§4.1) — list every immediate
subdirectory of the class root and wrap each name unchecked. -/
def Block.all (fs : Fs) : Except IoError (List Block) :=
  match fs.classDirNames with
  | .error e => .error e
  | .ok names => .ok (names.map (fun n => ⟨blockClassRoot ++ "/" ++ n⟩))

/-- Rust `str::parse::<u8>`: optional leading `+`, one or more ASCII
digits, value below 256; anything else is a parse error. -/
def parseU8 (s : String) : Option Nat :=
  let ds := match s.data with
    | '+' :: rest => rest
    | cs => cs
  if ds.isEmpty then none
  else if ds.all Char.isDigit then
    let n := ds.foldl (fun acc c => acc * 10 + (c.toNat - 48)) 0
    if n < 256 then some n else none
  else none

-- SCSI device types, copied from the kernel header exactly as in block.rs.
def SCSI_TYPE_DISK : Nat := 0x00
def SCSI_TYPE_TAPE : Nat := 0x01
def SCSI_TYPE_PRINTER : Nat := 0x02
def SCSI_TYPE_PROCESSOR : Nat := 0x03
def SCSI_TYPE_WORM : Nat := 0x04
def SCSI_TYPE_ROM : Nat := 0x05
def SCSI_TYPE_SCANNER : Nat := 0x06
def SCSI_TYPE_MOD : Nat := 0x07
def SCSI_TYPE_MEDIUM_CHANGER : Nat := 0x08
def SCSI_TYPE_COMM : Nat := 0x09
def SCSI_TYPE_RAID : Nat := 0x0c
def SCSI_TYPE_ENCLOSURE : Nat := 0x0d
def SCSI_TYPE_RBC : Nat := 0x0e
def SCSI_TYPE_OSD : Nat := 0x11
def SCSI_TYPE_ZBC : Nat := 0x14
def SCSI_TYPE_WLUN : Nat := 0x1e
def SCSI_TYPE_NO_LUN : Nat := 0x7f

/-- `enum ScsiDeviceType`: the 17 named SCSI peripheral-device-type codes
plus the fallback `Unknown(u8)` variant. -/
inductive ScsiDeviceType
  | Disk
  | Tape
  | Printer
  | Processor
  | WriteOnceReadManyDevice
  | ReadOnlyMemory
  | Scanner
  | MagnetoOpticalDisk
  | MediumChanger
  | CommunicationsDevice
  | Raid
  | Enclosure
  | ReducedBlockCommandsDevice
  | ObjectStorageDevice
  | ZonedBlockDevice
  | WellKnownLogicalUnit
  | NoLogicalUnit
  | Unknown (number : Nat)
deriving DecidableEq

/-- `impl From<ScsiDeviceType> for u8`. -/
def ScsiDeviceType.toU8 : ScsiDeviceType → Nat
  | .Disk => SCSI_TYPE_DISK
  | .Tape => SCSI_TYPE_TAPE
  | .Printer => SCSI_TYPE_PRINTER
  | .Processor => SCSI_TYPE_PROCESSOR
  | .WriteOnceReadManyDevice => SCSI_TYPE_WORM
  | .ReadOnlyMemory => SCSI_TYPE_ROM
  | .Scanner => SCSI_TYPE_SCANNER
  | .MagnetoOpticalDisk => SCSI_TYPE_MOD
  | .MediumChanger => SCSI_TYPE_MEDIUM_CHANGER
  | .CommunicationsDevice => SCSI_TYPE_COMM
  | .Raid => SCSI_TYPE_RAID
  | .Enclosure => SCSI_TYPE_ENCLOSURE
  | .ReducedBlockCommandsDevice => SCSI_TYPE_RBC
  | .ObjectStorageDevice => SCSI_TYPE_OSD
  | .ZonedBlockDevice => SCSI_TYPE_ZBC
  | .WellKnownLogicalUnit => SCSI_TYPE_WLUN
  | .NoLogicalUnit => SCSI_TYPE_NO_LUN
  | .Unknown number => number

/-- The byte-to-variant match inside `ScsiDeviceType::from_str`. -/
def ScsiDeviceType.ofByte (number : Nat) : ScsiDeviceType :=
  if number = SCSI_TYPE_DISK then .Disk
  else if number = SCSI_TYPE_TAPE then .Tape
  else if number = SCSI_TYPE_PRINTER then .Printer
  else if number = SCSI_TYPE_PROCESSOR then .Processor
  else if number = SCSI_TYPE_WORM then .WriteOnceReadManyDevice
  else if number = SCSI_TYPE_ROM then .ReadOnlyMemory
  else if number = SCSI_TYPE_SCANNER then .Scanner
  else if number = SCSI_TYPE_MOD then .MagnetoOpticalDisk
  else if number = SCSI_TYPE_MEDIUM_CHANGER then .MediumChanger
  else if number = SCSI_TYPE_COMM then .CommunicationsDevice
  else if number = SCSI_TYPE_RAID then .Raid
  else if number = SCSI_TYPE_ENCLOSURE then .Enclosure
  else if number = SCSI_TYPE_RBC then .ReducedBlockCommandsDevice
  else if number = SCSI_TYPE_OSD then .ObjectStorageDevice
  else if number = SCSI_TYPE_ZBC then .ZonedBlockDevice
  else if number = SCSI_TYPE_WLUN then .WellKnownLogicalUnit
  else if number = SCSI_TYPE_NO_LUN then .NoLogicalUnit
  else .Unknown number

/-- `impl FromStr for ScsiDeviceType`: parse the text as a `u8`, then map
the byte to its variant; a parse failure is `none`. -/
def ScsiDeviceType.from_str (s : String) : Option ScsiDeviceType :=
  (parseU8 s).map ScsiDeviceType.ofByte

/-- `enum BlockDeviceType`. -/
inductive BlockDeviceType
  | DeviceMapper
  | StorageDevice
  | Nvme
  | Loop
  | MultipleDevice
  | Partition
  | RamDisk
  | CompressedRamDisk
  | Scsi (t : ScsiDeviceType)
  | Unknown
deriving DecidableEq

/-- Split a character list at `/` separators (the semantics of
`String.splitOn "/"`, restated structurally; `acc` holds the current
segment reversed). -/
def splitSlash : List Char → List Char → List String
  | [], acc => [⟨acc.reverse⟩]
  | c :: cs, acc =>
    if c = '/' then (⟨acc.reverse⟩ : String) :: splitSlash cs []
    else splitSlash cs (c :: acc)

/-- Rust `Path::file_name` mapped through `to_str`: the final
non-empty, non-`.` component; `none` for an empty path or one ending
in `..`. -/
def pathFileName (p : String) : Option String :=
  match ((splitSlash p.data []).filter (fun c => !(c = "" || c = "."))).getLast? with
  | none => none
  | some c => if c = ".." then none else some c

/-- One naming-pattern check of `device_type`: the name starts with
`pre` and the character at (char) index `i` satisfies `f`. -/
def nameCheck (n : String) (pre : String) (i : Nat) (f : Char → Bool) : Bool :=
  strStartsWith n pre && isSomeAnd n.data[i]? f

/-- `method!(partition parse_file u8)`: the `partition` attribute. -/
def Block.partition (b : Block) (fs : Fs) : Except FileError Nat :=
  b.parse_file fs "partition" parseU8

/-- `method!("device/type", device_type_scsi parse_file ScsiDeviceType)`. -/
def Block.device_type_scsi (b : Block) (fs : Fs) : Except FileError ScsiDeviceType :=
  b.parse_file fs "device/type" ScsiDeviceType.from_str

/-- `Block::device_type`: classification by strict precedence over the
partition attribute, naming patterns and the SCSI type attribute. -/
def Block.device_type (b : Block) (fs : Fs) : BlockDeviceType :=
  let name := pathFileName b.path
  if (b.partition fs).isOk then .Partition
  else if isSomeAnd name (fun n => nameCheck n "dm-" 3 Char.isDigit) then .DeviceMapper
  else if isSomeAnd name (fun n => nameCheck n "loop" 4 Char.isDigit) then .Loop
  else if isSomeAnd name (fun n => nameCheck n "md" 2 Char.isDigit) then .MultipleDevice
  else if isSomeAnd name (fun n => nameCheck n "nvme" 4 Char.isDigit) then .Nvme
  else if isSomeAnd name (fun n => nameCheck n "ram" 3 Char.isDigit) then .RamDisk
  else if isSomeAnd name (fun n => nameCheck n "zram" 4 Char.isDigit) then .CompressedRamDisk
  else
    match b.device_type_scsi fs with
    | .ok t => .Scsi t
    | .error _ =>
      if isSomeAnd name (fun n => nameCheck n "sd" 2 Char.isAlpha) then .StorageDevice
      else .Unknown

/-- First defined element of a rule list, with a default. -/
def firstSome : List (Option α) → α → α
  | [], d => d
  | none :: rest, d => firstSome rest d
  | some a :: _, _ => a

/-- The §4.3 classification rule list, one optional verdict per rule, in
the spec's stated precedence order. -/
def deviceTypeRules (b : Block) (fs : Fs) : List (Option BlockDeviceType) :=
  let name := pathFileName b.path
  [ if (b.partition fs).isOk then some .Partition else none,
    if isSomeAnd name (fun n => nameCheck n "dm-" 3 Char.isDigit) then some .DeviceMapper else none,
    if isSomeAnd name (fun n => nameCheck n "loop" 4 Char.isDigit) then some .Loop else none,
    if isSomeAnd name (fun n => nameCheck n "md" 2 Char.isDigit) then some .MultipleDevice else none,
    if isSomeAnd name (fun n => nameCheck n "nvme" 4 Char.isDigit) then some .Nvme else none,
    if isSomeAnd name (fun n => nameCheck n "ram" 3 Char.isDigit) then some .RamDisk else none,
    if isSomeAnd name (fun n => nameCheck n "zram" 4 Char.isDigit) then some .CompressedRamDisk else none,
    match b.device_type_scsi fs with
    | .ok t => some (.Scsi t)
    | .error _ => none,
    if isSomeAnd name (fun n => nameCheck n "sd" 2 Char.isAlpha) then some .StorageDevice else none,
    some .Unknown ]

/-- The spec's wording of §4.3: the first matching rule's variant. -/
def deviceTypeSpec (b : Block) (fs : Fs) : BlockDeviceType :=
  firstSome (deviceTypeRules b fs) .Unknown

/-- `Block::parent_device`: `partition().ok()` gates the derivation; the
path is truncated at byte offset `len - partition/10 - 1`.  The `usize`
underflow (when `len < partition/10 + 1`) and the byte split off a char
boundary are Rust panics, surfaced as `RunError.crash`. -/
def Block.parent_device (b : Block) (fs : Fs) : Except RunError (Option Block) :=
  match (b.partition fs).toOption with
  | none => .ok none
  | some p =>
    let cs := b.path.data
    let len := utf8Len cs
    if p / 10 + 1 > len then .error .crash
    else
      match takeBytes cs (len - p / 10 - 1) with
      | none => .error .crash
      | some pre => .ok (some ⟨⟨pre⟩⟩)

/-- Effectful filter over `Except`, evaluating the predicate left to
right and propagating its first error (Rust iterator `filter` whose
closure may panic). -/
def filterE (p : α → Except ε Bool) : List α → Except ε (List α)
  | [] => .ok []
  | x :: xs =>
    match p x with
    | .error e => .error e
    | .ok b =>
      match filterE p xs with
      | .error e => .error e
      | .ok rest => .ok (if b then x :: rest else rest)

/-- The filter predicate of `Block::children`:
`x.parent_device().map_or(false, |parent| parent.path() == self.path)`. -/
def parentMatches (b x : Block) (fs : Fs) : Except RunError Bool :=
  match x.parent_device fs with
  | .error e => .error e
  | .ok none => .ok false
  | .ok (some parent) => .ok (decide (parent.path = b.path))

/-- Lexicographic order on character lists by code point (the byte order
of their UTF-8 encodings, hence the `PathBuf` ordering used by the
derived `Ord` of `Block`). -/
def charLe : List Char → List Char → Bool
  | [], _ => true
  | _ :: _, [] => false
  | a :: as, b :: bs => if a.toNat = b.toNat then charLe as bs else decide (a.toNat < b.toNat)

/-- The order `Block::children` sorts by: the path order. -/
def pathLe (x y : Block) : Bool := charLe x.path.data y.path.data

/-- `Block::children`: enumerate all instances, keep those whose derived
parent path equals this instance's path, and sort ascending by path
(`sort_unstable` on the derived `Ord`, i.e. the path order; the sorted
result is canonical, so the sorting algorithm is irrelevant). -/
def Block.children (b : Block) (fs : Fs) : Except RunError (List Block) :=
  match Block.all fs with
  | .error e => .error (.io e)
  | .ok blocks =>
    match filterE (fun x => parentMatches b x fs) blocks with
    | .error e => .error e
    | .ok l => .ok (l.insertionSort (fun x y => pathLe x y = true))

/-- `Block::slaves`: `none` when no `slaves` subdirectory exists;
otherwise the directory listing, each entry either a full path or a
per-entry read error, with a listing failure as the outer error. -/
def Block.slaves (b : Block) (fs : Fs) :
    Option (Except IoError (List (Except IoError String))) :=
  let slavesPath := b.path ++ "/slaves"
  if fs.pathExists slavesPath then
    some
      (match fs.readDir slavesPath with
       | .ok entries =>
         .ok (entries.map (fun e =>
           match e with
           | .ok entryName => .ok (slavesPath ++ "/" ++ entryName)
           | .error why => .error why))
       | .error why => .error why)
  else none

/-- `struct BlockScheduler { schedules: Vec<String>, active: u8 }`. -/
structure BlockScheduler where
  schedules : List String
  active : Nat
deriving DecidableEq

/-- `BlockScheduler::active`: `&self.schedules[self.active as usize]`;
`none` models the index-out-of-bounds panic. -/
def BlockScheduler.activeName (bs : BlockScheduler) : Option String :=
  bs.schedules[bs.active]?

/-- Rust `str::split_whitespace`: maximal non-whitespace runs, in order
(whitespace decided by `Char.isWhitespace`); `acc` holds the current run
reversed. -/
def splitWsAux : List Char → List Char → List String
  | [], acc => if acc.isEmpty then [] else [⟨acc.reverse⟩]
  | c :: cs, acc =>
    if c.isWhitespace then
      if acc.isEmpty then splitWsAux cs [] else ⟨acc.reverse⟩ :: splitWsAux cs []
    else splitWsAux cs (c :: acc)

def splitWhitespace (s : String) : List String := splitWsAux s.data []

/-- The bracket strip of `queue_scheduler`:
`&schedule[1..schedule.len() - 1]` in bytes; `none` models the panic on
a one-byte token (reversed range) or a non-boundary end index. -/
def stripActive (t : String) : Option String :=
  (sliceBytes t.data 1 (utf8Len t.data - 1)).map (fun cs => (⟨cs⟩ : String))

/-- One iteration of the `queue_scheduler` loop over the state
(active index, schedules so far). -/
def schedStep (st : Nat × List String) (tok : String) : Option (Nat × List String) :=
  if strStartsWith tok "[" then
    match stripActive tok with
    | none => none
    | some u => some (st.2.length, st.2 ++ [u])
  else some (st.1, st.2 ++ [tok])

/-- The `queue_scheduler` loop. -/
def schedFold : List String → (Nat × List String) → Option (Nat × List String)
  | [], st => some st
  | t :: ts, st =>
    match schedStep st t with
    | none => none
    | some st2 => schedFold ts st2

/-- The pure core of `Block::queue_scheduler` on the attribute text;
the final `active as u8` cast is the `% 256`. -/
def queueSchedulerOfText (s : String) : Option BlockScheduler :=
  (schedFold (splitWhitespace s) (0, [])).map (fun st => ⟨st.2, st.1 % 256⟩)

/-- `Block::queue_scheduler`: read `queue/scheduler` and parse it. -/
def Block.queue_scheduler (b : Block) (fs : Fs) : Except RunError BlockScheduler :=
  match b.read_file fs "queue/scheduler" with
  | .error e => .error (.io e)
  | .ok txt =>
    match queueSchedulerOfText txt with
    | none => .error .crash
    | some bs => .ok bs

/-- A concrete filesystem built from an association list of file
contents, an association list of listable directories, and the names
under the class root; everything else is absent. -/
def mkFs (files : List (String × String))
    (dirs : List (String × List (Except IoError String)))
    (classNames : List String) : Fs where
  readFile := fun p =>
    match files.lookup p with
    | some t => .ok t
    | none => .error .notFound
  pathExists := fun p => (files.lookup p).isSome || (dirs.lookup p).isSome
  readDir := fun p =>
    match dirs.lookup p with
    | some es => .ok es
    | none => .error .notFound
  classDirNames := .ok classNames

/-- A concrete filesystem holding only plain files. -/
def fsOfFiles (files : List (String × String)) : Fs := mkFs files [] []

/-- The token transformation of one `queue_scheduler` loop iteration,
as it acts on the stored name: a bracketed token is stripped (possibly
panicking, `none`), any other token is stored as-is. -/
def stripTok (t : String) : Option String :=
  if strStartsWith t "[" then stripActive t else some t

/-- Map a fallible function over a list, failing on the first failure. -/
def mapO (f : α → Option β) : List α → Option (List β)
  | [] => some []
  | x :: xs =>
    match f x, mapO f xs with
    | some y, some ys => some (y :: ys)
    | _, _ => none

/-- The 17 SCSI codes `ScsiDeviceType` names (all other bytes are
`Unknown`). -/
def knownScsiCodes : List Nat :=
  [SCSI_TYPE_DISK, SCSI_TYPE_TAPE, SCSI_TYPE_PRINTER, SCSI_TYPE_PROCESSOR, SCSI_TYPE_WORM,
   SCSI_TYPE_ROM, SCSI_TYPE_SCANNER, SCSI_TYPE_MOD, SCSI_TYPE_MEDIUM_CHANGER, SCSI_TYPE_COMM,
   SCSI_TYPE_RAID, SCSI_TYPE_ENCLOSURE, SCSI_TYPE_RBC, SCSI_TYPE_OSD, SCSI_TYPE_ZBC,
   SCSI_TYPE_WLUN, SCSI_TYPE_NO_LUN]

/-- A sysfs tree holding one NVMe partition with a `partition` attribute. -/
def fsNvme : Fs := fsOfFiles [("/sys/class/block/nvme0n1p1/partition", "1\n")]

/-- A sysfs tree holding the three standard-convention partitions of §4.2. -/
def fsParents : Fs := fsOfFiles
  [("/sys/class/block/sda1/partition", "1\n"),
   ("/sys/class/block/sda12/partition", "12\n"),
   ("/sys/class/block/nvme0n1p3/partition", "3\n")]

/-- A degenerate device whose path is the empty string but whose
`partition` attribute parses. -/
def fsEmptyPath : Fs := fsOfFiles [("/partition", "1")]

/-- A sysfs tree with a disk `sda` and two partitions, listed out of
order under the class root. -/
def fsChildren : Fs :=
  mkFs [("/sys/class/block/sda2/partition", "2\n"), ("/sys/class/block/sda1/partition", "1\n")]
    [] ["sda2", "sda", "sda1"]

/-- A sysfs tree where `dm-0` has an empty `slaves` directory. -/
def fsSlaves : Fs := mkFs [] [("/sys/class/block/dm-0/slaves", [])] []

/-!
## Helper lemmas

General facts about the embedding's primitives, shared by the claim
theorems below.
-/

set_option maxRecDepth 8000

theorem firstSome_cons_ite (c : Bool) (v : α) (rest : List (Option α)) (d : α) :
    firstSome ((if c then some v else none) :: rest) d = if c then v else firstSome rest d := by
  cases c <;> simp [firstSome]

theorem firstSome_cons_scsi (e : Except FileError ScsiDeviceType)
    (rest : List (Option BlockDeviceType)) (d : BlockDeviceType) :
    firstSome ((match e with
      | .ok t => some (BlockDeviceType.Scsi t)
      | .error _ => none) :: rest) d =
      (match e with
       | .ok t => BlockDeviceType.Scsi t
       | .error _ => firstSome rest d) := by
  cases e <;> simp [firstSome]

theorem firstSome_singleton (v d : α) : firstSome [some v] d = v := rfl

theorem charLe_total : ∀ xs ys : List Char, charLe xs ys = true ∨ charLe ys xs = true := by
  intro xs
  induction xs with
  | nil => intro ys; left; rfl
  | cons a as ih =>
    intro ys
    cases ys with
    | nil => right; rfl
    | cons b bs =>
      by_cases h : a.toNat = b.toNat
      · rcases ih bs with hl | hr
        · left; simp [charLe, h, hl]
        · right; simp [charLe, h.symm, hr]
      · rcases Nat.lt_or_ge a.toNat b.toNat with hlt | hge
        · left; simp [charLe, h, hlt]
        · have hne : b.toNat ≠ a.toNat := fun e => h e.symm
          have hbl : b.toNat < a.toNat := Nat.lt_of_le_of_ne hge hne
          right; simp [charLe, hne, hbl]

theorem charLe_trans : ∀ xs ys zs : List Char,
    charLe xs ys = true → charLe ys zs = true → charLe xs zs = true := by
  intro xs
  induction xs with
  | nil => intro ys zs _ _; rfl
  | cons a as ih =>
    intro ys zs h1 h2
    cases ys with
    | nil => simp [charLe] at h1
    | cons b bs =>
      cases zs with
      | nil => simp [charLe] at h2
      | cons c cs =>
        simp only [charLe] at h1 h2 ⊢
        by_cases hab : a.toNat = b.toNat
        · by_cases hbc : b.toNat = c.toNat
          · rw [if_pos hab] at h1
            rw [if_pos hbc] at h2
            rw [if_pos (hab.trans hbc)]
            exact ih bs cs h1 h2
          · rw [if_neg hbc] at h2
            have hlt : b.toNat < c.toNat := of_decide_eq_true h2
            have hac : a.toNat < c.toNat := hab ▸ hlt
            rw [if_neg (Nat.ne_of_lt hac)]
            exact decide_eq_true hac
        · rw [if_neg hab] at h1
          have hlt1 : a.toNat < b.toNat := of_decide_eq_true h1
          by_cases hbc : b.toNat = c.toNat
          · have hac : a.toNat < c.toNat := hbc ▸ hlt1
            rw [if_neg (Nat.ne_of_lt hac)]
            exact decide_eq_true hac
          · rw [if_neg hbc] at h2
            have hlt2 : b.toNat < c.toNat := of_decide_eq_true h2
            have hac : a.toNat < c.toNat := Nat.lt_trans hlt1 hlt2
            rw [if_neg (Nat.ne_of_lt hac)]
            exact decide_eq_true hac

theorem filterE_mem {e a : Type} [DecidableEq a] (p : a → Except e Bool) :
    ∀ (xs r : List a), filterE p xs = .ok r →
      ∀ x, x ∈ r ↔ (x ∈ xs ∧ p x = .ok true) := by
  intro xs
  induction xs with
  | nil =>
    intro r h x
    simp only [filterE] at h
    cases h
    simp
  | cons y ys ih =>
    intro r h x
    simp only [filterE] at h
    cases hp : p y with
    | error er => rw [hp] at h; cases h
    | ok bv =>
      rw [hp] at h
      cases hrest : filterE p ys with
      | error er => rw [hrest] at h; cases h
      | ok rest =>
        rw [hrest] at h
        cases bv with
        | true =>
          have hr : y :: rest = r := by cases h; rfl
          subst hr
          rw [List.mem_cons, List.mem_cons, ih rest hrest x]
          by_cases hxy : x = y
          · simp [hxy, hp]
          · simp [hxy]
        | false =>
          have hr : rest = r := by cases h; rfl
          subst hr
          rw [ih rest hrest x, List.mem_cons]
          by_cases hxy : x = y
          · subst hxy
            simp [hp]
          · simp [hxy]

theorem parentMatches_ok_true (b x : Block) (fs : Fs) :
    parentMatches b x fs = .ok true ↔
      ∃ parent, x.parent_device fs = .ok (some parent) ∧ parent.path = b.path := by
  unfold parentMatches
  cases h : x.parent_device fs with
  | error er => simp
  | ok o =>
    cases o with
    | none => simp
    | some parent =>
      simp only [Except.ok.injEq, decide_eq_true_eq]
      constructor
      · intro heq; exact ⟨parent, rfl, heq⟩
      · intro hex
        rcases hex with ⟨q, hq, hpath⟩
        cases hq
        exact hpath

theorem schedFold_schedules :
    ∀ (toks : List String) (a : Nat) (l : List String) (res : Nat × List String),
      schedFold toks (a, l) = some res →
      ∃ stripped, mapO stripTok toks = some stripped ∧ res.2 = l ++ stripped := by
  intro toks
  induction toks with
  | nil =>
    intro a l res h
    cases h
    exact ⟨[], rfl, (List.append_nil l).symm⟩
  | cons t ts ih =>
    intro a l res h
    rw [schedFold] at h
    cases hstep : schedStep (a, l) t with
    | none => rw [hstep] at h; cases h
    | some st2 =>
      rw [hstep] at h
      dsimp only at h
      unfold schedStep at hstep
      by_cases hb : strStartsWith t "[" = true
      · rw [if_pos hb] at hstep
        cases hs : stripActive t with
        | none => rw [hs] at hstep; cases hstep
        | some u =>
          rw [hs] at hstep
          cases hstep
          rcases ih _ _ _ h with ⟨str, hstr, hres⟩
          refine ⟨u :: str, ?_, ?_⟩
          · simp [mapO, stripTok, hb, hs, hstr]
          · rw [hres]; simp
      · rw [if_neg hb] at hstep
        cases hstep
        rcases ih _ _ _ h with ⟨str, hstr, hres⟩
        refine ⟨t :: str, ?_, ?_⟩
        · simp [mapO, stripTok, hb, hstr]
        · rw [hres]; simp

theorem schedFold_lt :
    ∀ (toks : List String) (a : Nat) (l : List String) (res : Nat × List String),
      schedFold toks (a, l) = some res → a < l.length → res.1 < res.2.length := by
  intro toks
  induction toks with
  | nil =>
    intro a l res h ha
    cases h
    exact ha
  | cons t ts ih =>
    intro a l res h ha
    rw [schedFold] at h
    cases hstep : schedStep (a, l) t with
    | none => rw [hstep] at h; cases h
    | some st2 =>
      rw [hstep] at h
      dsimp only at h
      unfold schedStep at hstep
      by_cases hb : strStartsWith t "[" = true
      · rw [if_pos hb] at hstep
        cases hs : stripActive t with
        | none => rw [hs] at hstep; cases hstep
        | some u =>
          rw [hs] at hstep
          cases hstep
          exact ih _ _ _ h (by simp)
      · rw [if_neg hb] at hstep
        cases hstep
        exact ih _ _ _ h (by simp; omega)

theorem schedFold_bracket :
    ∀ (toks : List String) (a : Nat) (l : List String) (res : Nat × List String),
      schedFold toks (a, l) = some res →
      (∃ t ∈ toks, strStartsWith t "[" = true) → res.1 < res.2.length := by
  intro toks
  induction toks with
  | nil =>
    intro a l res h hex
    rcases hex with ⟨t, ht, _⟩
    cases ht
  | cons t ts ih =>
    intro a l res h hex
    rw [schedFold] at h
    cases hstep : schedStep (a, l) t with
    | none => rw [hstep] at h; cases h
    | some st2 =>
      rw [hstep] at h
      dsimp only at h
      unfold schedStep at hstep
      by_cases hb : strStartsWith t "[" = true
      · rw [if_pos hb] at hstep
        cases hs : stripActive t with
        | none => rw [hs] at hstep; cases hstep
        | some u =>
          rw [hs] at hstep
          cases hstep
          exact schedFold_lt _ _ _ _ h (by simp)
      · rw [if_neg hb] at hstep
        cases hstep
        rcases hex with ⟨tb, htb, hbb⟩
        rcases List.mem_cons.mp htb with rfl | htb2
        · rw [hbb] at hb; exact absurd rfl hb
        · exact ih _ _ _ h ⟨tb, htb2, hbb⟩

theorem schedFold_nobracket :
    ∀ (toks : List String) (a : Nat) (l : List String) (res : Nat × List String),
      schedFold toks (a, l) = some res →
      (∀ t ∈ toks, strStartsWith t "[" = false) → res.1 = a := by
  intro toks
  induction toks with
  | nil =>
    intro a l res h _
    cases h
    rfl
  | cons t ts ih =>
    intro a l res h hall
    rw [schedFold] at h
    cases hstep : schedStep (a, l) t with
    | none => rw [hstep] at h; cases h
    | some st2 =>
      rw [hstep] at h
      dsimp only at h
      unfold schedStep at hstep
      have hb : strStartsWith t "[" = false := hall t (List.mem_cons_self t ts)
      rw [hb] at hstep
      simp only [Bool.false_eq_true, if_false] at hstep
      cases hstep
      exact ih _ _ _ h (fun u hu => hall u (List.mem_cons_of_mem t hu))

theorem splitWsAux_all_ws :
    ∀ cs : List Char, cs.all Char.isWhitespace = true → splitWsAux cs [] = [] := by
  intro cs
  induction cs with
  | nil => intro _; rfl
  | cons c cs ih =>
    intro h
    simp only [List.all_cons, Bool.and_eq_true] at h
    simp [splitWsAux, h.1, ih h.2]

theorem parent_device_eval (b : Block) (fs : Fs) (p : Nat) (pre : List Char)
    (hp : (b.partition fs).toOption = some p)
    (hlen : p / 10 + 1 ≤ utf8Len b.path.data)
    (ht : takeBytes b.path.data (utf8Len b.path.data - p / 10 - 1) = some pre) :
    b.parent_device fs = .ok (some ⟨⟨pre⟩⟩) := by
  unfold Block.parent_device
  rw [hp]
  dsimp only
  rw [if_neg (by omega), ht]

/-!
## The claims
-/

/-- C1: for every `Block`, `device_type` evaluates the classification
rules in the strict precedence order Partition, DeviceMapper, Loop,
MultipleDevice, Nvme, RamDisk, CompressedRamDisk, Scsi, StorageDevice,
Unknown and returns the first matching rule's variant even when a later
rule would also match; in particular the device `nvme0n1p1` with a valid
`partition` attribute classifies as `Partition` although the Nvme naming
rule also matches it. -/
theorem device_type_rule_order :
    (∀ (b : Block) (fs : Fs), b.device_type fs = deviceTypeSpec b fs) ∧
    (Block.device_type ⟨"/sys/class/block/nvme0n1p1"⟩ fsNvme = .Partition ∧
      isSomeAnd (pathFileName "/sys/class/block/nvme0n1p1")
        (fun n => nameCheck n "nvme" 4 Char.isDigit) = true) := by
  refine ⟨fun b fs => ?_, by decide, by decide⟩
  unfold Block.device_type deviceTypeSpec deviceTypeRules
  simp only [firstSome_cons_ite, firstSome_cons_scsi, firstSome_singleton]

/-- C2: parsing the decimal text of any byte 0–255 as a
`ScsiDeviceType` and converting back yields the byte; each of the 17
known SCSI codes maps to its named variant and every other byte maps to
`Unknown` of that byte, with the conversion back to `u8` returning the
originating byte. -/
theorem scsi_codec_roundtrip :
    (∀ b : Fin 256,
      ScsiDeviceType.from_str (Nat.repr b.val) = some (ScsiDeviceType.ofByte b.val) ∧
      (ScsiDeviceType.ofByte b.val).toU8 = b.val ∧
      (ScsiDeviceType.from_str (Nat.repr b.val)).map ScsiDeviceType.toU8 = some b.val ∧
      (b.val ∉ knownScsiCodes → ScsiDeviceType.ofByte b.val = .Unknown b.val)) ∧
    ScsiDeviceType.ofByte SCSI_TYPE_DISK = .Disk ∧
    ScsiDeviceType.ofByte SCSI_TYPE_TAPE = .Tape ∧
    ScsiDeviceType.ofByte SCSI_TYPE_PRINTER = .Printer ∧
    ScsiDeviceType.ofByte SCSI_TYPE_PROCESSOR = .Processor ∧
    ScsiDeviceType.ofByte SCSI_TYPE_WORM = .WriteOnceReadManyDevice ∧
    ScsiDeviceType.ofByte SCSI_TYPE_ROM = .ReadOnlyMemory ∧
    ScsiDeviceType.ofByte SCSI_TYPE_SCANNER = .Scanner ∧
    ScsiDeviceType.ofByte SCSI_TYPE_MOD = .MagnetoOpticalDisk ∧
    ScsiDeviceType.ofByte SCSI_TYPE_MEDIUM_CHANGER = .MediumChanger ∧
    ScsiDeviceType.ofByte SCSI_TYPE_COMM = .CommunicationsDevice ∧
    ScsiDeviceType.ofByte SCSI_TYPE_RAID = .Raid ∧
    ScsiDeviceType.ofByte SCSI_TYPE_ENCLOSURE = .Enclosure ∧
    ScsiDeviceType.ofByte SCSI_TYPE_RBC = .ReducedBlockCommandsDevice ∧
    ScsiDeviceType.ofByte SCSI_TYPE_OSD = .ObjectStorageDevice ∧
    ScsiDeviceType.ofByte SCSI_TYPE_ZBC = .ZonedBlockDevice ∧
    ScsiDeviceType.ofByte SCSI_TYPE_WLUN = .WellKnownLogicalUnit ∧
    ScsiDeviceType.ofByte SCSI_TYPE_NO_LUN = .NoLogicalUnit := by
  decide

/-- Witness for C2 at the unknown code 10 and at `Disk`. -/
theorem scsi_codec_roundtrip_witness :
    ScsiDeviceType.ofByte (10 : Fin 256).val = .Unknown (10 : Fin 256).val :=
  (scsi_codec_roundtrip.1 (10 : Fin 256)).2.2.2 (by decide)

/-- C3: `parent_device` returns `none` exactly when the `partition`
attribute fails to read or parse; when it parses as `p`, the device
path is truncated at byte offset `len - p / 10 - 1` and the prefix is
wrapped as an unchecked `Block` and returned as the parent (the panic
cases for a nonsensical offset are separate; they never yield `none`). -/
theorem parent_device_partition_gate :
    ∀ (b : Block) (fs : Fs),
      (b.parent_device fs = .ok none ↔ (b.partition fs).toOption = none) ∧
      (∀ (p : Nat) (pre : List Char), (b.partition fs).toOption = some p →
        p / 10 + 1 ≤ utf8Len b.path.data →
        takeBytes b.path.data (utf8Len b.path.data - p / 10 - 1) = some pre →
        b.parent_device fs = .ok (some ⟨⟨pre⟩⟩)) := by
  intro b fs
  constructor
  · cases hp : (b.partition fs).toOption with
    | none =>
      unfold Block.parent_device
      rw [hp]
      simp
    | some p =>
      unfold Block.parent_device
      rw [hp]
      dsimp only
      constructor
      · intro h
        by_cases hlen : p / 10 + 1 > utf8Len b.path.data
        · rw [if_pos hlen] at h
          cases h
        · rw [if_neg hlen] at h
          cases ht : takeBytes b.path.data (utf8Len b.path.data - p / 10 - 1) with
          | none => rw [ht] at h; cases h
          | some pre => rw [ht] at h; simp at h
      · intro h
        cases h
  · intro p pre hp hlen ht
    exact parent_device_eval b fs p pre hp hlen ht

/-- Witness for C3: `sda1` with partition 1 yields the parent `sda`. -/
theorem parent_device_partition_gate_witness :
    Block.parent_device ⟨"/sys/class/block/sda1"⟩ fsParents =
      .ok (some ⟨"/sys/class/block/sda"⟩) :=
  (parent_device_partition_gate ⟨"/sys/class/block/sda1"⟩ fsParents).2 1
    "/sys/class/block/sda".data (by decide) (by decide) (by decide)

/-- C4 counterexample: for the device `nvme0n1p3` with partition 3 the
derived parent path is `/sys/class/block/nvme0n1p` — one character too
long — not a path ending in `nvme0n1` (the reversed-prefix check is the
ends-with test). -/
theorem parent_device_nvme_cx :
    Block.parent_device ⟨"/sys/class/block/nvme0n1p3"⟩ fsParents =
      .ok (some ⟨"/sys/class/block/nvme0n1p"⟩) ∧
    ("/sys/class/block/nvme0n1p" ≠ "/sys/class/block/nvme0n1") ∧
    listStartsWith "/sys/class/block/nvme0n1p".data.reverse "nvme0n1".data.reverse = false := by
  decide

/-- C4 as amended: the parent derivation is exact for directly-suffixed
names — `sda1` with partition 1 and `sda12` with partition 12 both
yield `sda` — but for `nvme0n1p3` with partition 3 it yields
`nvme0n1p`, retaining the `p` separator, not `nvme0n1`. -/
theorem parent_device_standard_names :
    Block.parent_device ⟨"/sys/class/block/sda1"⟩ fsParents =
      .ok (some ⟨"/sys/class/block/sda"⟩) ∧
    Block.parent_device ⟨"/sys/class/block/sda12"⟩ fsParents =
      .ok (some ⟨"/sys/class/block/sda"⟩) ∧
    Block.parent_device ⟨"/sys/class/block/nvme0n1p3"⟩ fsParents =
      .ok (some ⟨"/sys/class/block/nvme0n1p"⟩) := by
  decide

/-- C5: when `children` succeeds it returns a list sorted ascending by
the lexicographic path order, containing exactly those enumerated
instances whose `parent_device` resolves to a `Block` whose path equals
the queried instance's path, and no others. -/
theorem children_sorted_exact :
    ∀ (b : Block) (fs : Fs) (l : List Block),
      b.children fs = .ok l →
      l.Pairwise (fun x y => pathLe x y = true) ∧
      (∀ x, x ∈ l ↔
        ((∃ blocks, Block.all fs = .ok blocks ∧ x ∈ blocks) ∧
         (∃ parent, x.parent_device fs = .ok (some parent) ∧ parent.path = b.path))) := by
  intro b fs l h
  unfold Block.children at h
  cases hall : Block.all fs with
  | error er => rw [hall] at h; cases h
  | ok blocks =>
    rw [hall] at h
    dsimp only at h
    cases hf : filterE (fun x => parentMatches b x fs) blocks with
    | error er => rw [hf] at h; cases h
    | ok fl =>
      rw [hf] at h
      dsimp only at h
      have hl : List.insertionSort (fun x y => pathLe x y = true) fl = l := by
        cases h; rfl
      subst hl
      haveI : IsTotal Block (fun x y => pathLe x y = true) :=
        ⟨fun a b => charLe_total a.path.data b.path.data⟩
      haveI : IsTrans Block (fun x y => pathLe x y = true) :=
        ⟨fun a b c => charLe_trans a.path.data b.path.data c.path.data⟩
      constructor
      · exact List.sorted_insertionSort (fun x y => pathLe x y = true) fl
      · intro x
        rw [List.mem_insertionSort, filterE_mem _ blocks fl hf x, parentMatches_ok_true]
        constructor
        · intro hx
          exact ⟨⟨blocks, rfl, hx.1⟩, hx.2⟩
        · intro hx
          rcases hx with ⟨⟨blocks2, hb2, hxb⟩, hpar⟩
          cases hb2
          exact ⟨hxb, hpar⟩

/-- Witness for C5: in `fsChildren`, the children of `sda` are exactly
`sda1` and `sda2`, in sorted order. -/
theorem children_sorted_exact_witness :
    List.Pairwise (fun x y => pathLe x y = true)
        [Block.mk "/sys/class/block/sda1", Block.mk "/sys/class/block/sda2"] ∧
    (∀ x, x ∈ [Block.mk "/sys/class/block/sda1", Block.mk "/sys/class/block/sda2"] ↔
      ((∃ blocks, Block.all fsChildren = .ok blocks ∧ x ∈ blocks) ∧
       (∃ parent, x.parent_device fsChildren = .ok (some parent) ∧
         parent.path = (Block.mk "/sys/class/block/sda").path))) :=
  children_sorted_exact ⟨"/sys/class/block/sda"⟩ fsChildren
    [⟨"/sys/class/block/sda1"⟩, ⟨"/sys/class/block/sda2"⟩] (by decide)

/-- C6: `queue_scheduler` splits on whitespace, records the
pre-increment token count as the active index at a token starting with
`[` (stripping one leading and one trailing character), and appends
every token in order: `"noop deadline [cfq]"` parses to the schedulers
noop, deadline, cfq with active index 2 whose active name is `cfq`,
while the bracketless `"noop deadline"` parses with active index 0. -/
theorem queue_scheduler_parse_spec :
    queueSchedulerOfText "noop deadline [cfq]" = some ⟨["noop", "deadline", "cfq"], 2⟩ ∧
    BlockScheduler.activeName ⟨["noop", "deadline", "cfq"], 2⟩ = some "cfq" ∧
    queueSchedulerOfText "noop deadline" = some ⟨["noop", "deadline"], 0⟩ ∧
    (∀ (s : String) (bs : BlockScheduler), queueSchedulerOfText s = some bs →
      mapO stripTok (splitWhitespace s) = some bs.schedules) := by
  refine ⟨by decide, by decide, by decide, ?_⟩
  intro s bs h
  unfold queueSchedulerOfText at h
  cases hf : schedFold (splitWhitespace s) (0, []) with
  | none => rw [hf] at h; cases h
  | some st =>
    rw [hf] at h
    cases h
    rcases schedFold_schedules _ _ _ _ hf with ⟨str, hstr, hres⟩
    rw [hstr]
    dsimp only
    rw [hres]
    simp

/-- Witness for C6's token clause at the bracketed input. -/
theorem queue_scheduler_parse_spec_witness :
    mapO stripTok (splitWhitespace "noop deadline [cfq]") = some ["noop", "deadline", "cfq"] :=
  queue_scheduler_parse_spec.2.2.2 "noop deadline [cfq]"
    ⟨["noop", "deadline", "cfq"], 2⟩ (by decide)

/-- C7: every `BlockScheduler` built by `queue_scheduler` from an input
with at least one bracketed token satisfies `active <
schedulers.length`; with no bracketed token, `active` is 0. -/
theorem queue_scheduler_active_invariant :
    ∀ (s : String) (bs : BlockScheduler), queueSchedulerOfText s = some bs →
      ((∃ t ∈ splitWhitespace s, strStartsWith t "[" = true) →
        bs.active < bs.schedules.length) ∧
      ((∀ t ∈ splitWhitespace s, strStartsWith t "[" = false) → bs.active = 0) := by
  intro s bs h
  unfold queueSchedulerOfText at h
  cases hf : schedFold (splitWhitespace s) (0, []) with
  | none => rw [hf] at h; cases h
  | some st =>
    rw [hf] at h
    cases h
    constructor
    · intro hex
      have hlt : st.1 < st.2.length := schedFold_bracket _ _ _ _ hf hex
      exact Nat.lt_of_le_of_lt (Nat.mod_le st.1 256) hlt
    · intro hnone
      have h0 : st.1 = 0 := schedFold_nobracket _ _ _ _ hf hnone
      simp [h0]

/-- Witness for C7 at `"noop deadline [cfq]"`: active 2 < length 3. -/
theorem queue_scheduler_active_invariant_witness :
    (⟨["noop", "deadline", "cfq"], 2⟩ : BlockScheduler).active <
      (⟨["noop", "deadline", "cfq"], 2⟩ : BlockScheduler).schedules.length :=
  (queue_scheduler_active_invariant "noop deadline [cfq]"
      ⟨["noop", "deadline", "cfq"], 2⟩ (by decide)).1
    ⟨"[cfq]", by decide, by decide⟩

/-- C8: `slaves` returns `none` exactly when no `slaves` subdirectory
exists; an existing empty directory gives an empty sequence (not an
error); each entry is a path or a per-entry read error; and a listing
failure surfaces as the outer result's error. -/
theorem slaves_spec :
    ∀ (b : Block) (fs : Fs),
      (b.slaves fs = none ↔ fs.pathExists (b.path ++ "/slaves") = false) ∧
      (fs.pathExists (b.path ++ "/slaves") = true →
        fs.readDir (b.path ++ "/slaves") = .ok [] →
        b.slaves fs = some (.ok [])) ∧
      (∀ entries, fs.pathExists (b.path ++ "/slaves") = true →
        fs.readDir (b.path ++ "/slaves") = .ok entries →
        b.slaves fs = some (.ok (entries.map (fun e =>
          match e with
          | .ok entryName => .ok (b.path ++ "/slaves" ++ "/" ++ entryName)
          | .error why => .error why)))) ∧
      (∀ e, fs.pathExists (b.path ++ "/slaves") = true →
        fs.readDir (b.path ++ "/slaves") = .error e →
        b.slaves fs = some (.error e)) := by
  intro b fs
  refine ⟨?_, ?_, ?_, ?_⟩
  · simp only [Block.slaves]
    cases hex : fs.pathExists (b.path ++ "/slaves") <;> simp
  · intro hex hdir
    simp only [Block.slaves]
    rw [hex, hdir]
    simp
  · intro entries hex hdir
    simp only [Block.slaves]
    rw [hex, hdir]
    simp
  · intro e hex hdir
    simp only [Block.slaves]
    rw [hex, hdir]
    simp

/-- Witness for C8: `dm-0` with an existing empty `slaves` directory
yields an empty sequence. -/
theorem slaves_spec_witness :
    Block.slaves ⟨"/sys/class/block/dm-0"⟩ fsSlaves = some (.ok []) :=
  (slaves_spec ⟨"/sys/class/block/dm-0"⟩ fsSlaves).2.1 (by decide) (by decide)

/-- C9 counterexample: a `Block` whose path is the empty string but
whose `partition` attribute parses as 1 makes `parent_device` panic
(the `usize` subtraction `0 - 1/10 - 1` underflows), refuting the claim
that it never panics for an arbitrary UTF-8 path. -/
theorem parent_device_crash_cx :
    Block.parent_device ⟨""⟩ fsEmptyPath = .error .crash ∧
    (Block.partition ⟨""⟩ fsEmptyPath).toOption = some 1 := by
  decide

/-- C9 as amended: when `partition` parses as `p`, `parent_device` does
not panic provided the path's UTF-8 byte length is at least
`p / 10 + 1` and the byte offset `len - p / 10 - 1` falls on a
character boundary (both always hold for the ASCII sysfs paths of
standard naming); under those conditions it returns a parent. -/
theorem parent_device_no_crash :
    ∀ (b : Block) (fs : Fs) (p : Nat),
      (b.partition fs).toOption = some p →
      p / 10 + 1 ≤ utf8Len b.path.data →
      (takeBytes b.path.data (utf8Len b.path.data - p / 10 - 1)).isSome = true →
      ∃ blk, b.parent_device fs = .ok (some blk) := by
  intro b fs p hp hlen hs
  cases ht : takeBytes b.path.data (utf8Len b.path.data - p / 10 - 1) with
  | none => rw [ht] at hs; cases hs
  | some pre => exact ⟨⟨⟨pre⟩⟩, parent_device_eval b fs p pre hp hlen ht⟩

/-- Witness for C9's amended statement at `sda12` with partition 12. -/
theorem parent_device_no_crash_witness :
    ∃ blk, Block.parent_device ⟨"/sys/class/block/sda12"⟩ fsParents = .ok (some blk) :=
  parent_device_no_crash ⟨"/sys/class/block/sda12"⟩ fsParents 12
    (by decide) (by decide) (by decide)

/-- C10: on empty or whitespace-only attribute text, `queue_scheduler`
returns a `BlockScheduler` with an empty scheduler list and active
index 0, and the active-name accessor on that value indexes position 0
of the empty list and so panics (`none`) instead of returning a name. -/
theorem queue_scheduler_empty_crash :
    ∀ s : String, s.data.all Char.isWhitespace = true →
      queueSchedulerOfText s = some ⟨[], 0⟩ ∧
      BlockScheduler.activeName ⟨[], 0⟩ = none := by
  intro s h
  constructor
  · unfold queueSchedulerOfText splitWhitespace
    rw [splitWsAux_all_ws s.data h]
    rfl
  · rfl

/-- Witness for C10 at the whitespace-only text of a space, a tab and a
newline. -/
theorem queue_scheduler_empty_crash_witness :
    queueSchedulerOfText " \u0009\n" = some ⟨[], 0⟩ ∧
      BlockScheduler.activeName ⟨[], 0⟩ = none :=
  queue_scheduler_empty_crash " \u0009\n" (by decide)

end SysfsBlock
